import Mathlib

/-!
Verification development for the agent-frontmatter batch updater
(scripts/update-agent-frontmatter.py).

The script classifies agent markdown documents by relative path into two
static policy tables, parses the YAML-style frontmatter block at the top of
each document, merges the parsed fields with policy-derived fields, and
re-serializes the header in a fixed key order, preserving the document body.

Text is modelled as a list of characters so that every transformation is
byte-exact.  Each definition below mirrors one Python function or data
literal of the source; the I/O driver (directory walk, printing, file
writes) is modelled only through the outcome type of a single document.
-/

namespace AgentFM

/-- Text is a list of characters, byte-for-byte. -/
abbrev Str := List Char

/-- Single-quote character, written via its code point. -/
def squote : Char := Char.ofNat 39

/-- Whitespace characters stripped by the Python str.strip() method: the
exact set of code points on which the Python str.isspace predicate holds,
namely U+0009 to U+000D, U+001C to U+001F, U+0020, U+0085, U+00A0, U+1680,
U+2000 to U+200A, U+2028, U+2029, U+202F, U+205F and U+3000. -/
def isWs (c : Char) : Bool :=
  (0x09 ≤ c.toNat && c.toNat ≤ 0x0d) || (0x1c ≤ c.toNat && c.toNat ≤ 0x20) ||
  c.toNat == 0x85 || c.toNat == 0xa0 || c.toNat == 0x1680 ||
  (0x2000 ≤ c.toNat && c.toNat ≤ 0x200a) || c.toNat == 0x2028 || c.toNat == 0x2029 ||
  c.toNat == 0x202f || c.toNat == 0x205f || c.toNat == 0x3000

/-- Drop trailing characters satisfying p (helper for the strip functions). -/
def dropTrailing (p : Char → Bool) (s : Str) : Str :=
  (s.reverse.dropWhile p).reverse

/-- Python value.strip in its no-argument form: remove leading and trailing
whitespace. -/
def pyStrip (s : Str) : Str :=
  dropTrailing isWs (s.dropWhile isWs)

/-- Python value.strip with a character-set argument: remove all leading and
all trailing characters belonging to the set. -/
def stripChars (cs : List Char) (s : Str) : Str :=
  dropTrailing (fun c => cs.contains c) (s.dropWhile (fun c => cs.contains c))

/-- The opening marker line of a frontmatter block together with its
terminating newline, as required at the very start of the regex
in parse_frontmatter. -/
def marker : Str := "---\n".toList

/-- The closing-delimiter pattern searched for by the non-greedy regex:
a newline, the three-dash marker line, and its newline. -/
def closeMark : Str := "\n---\n".toList

/-- Scan for the first occurrence of the closing pattern, mirroring the
non-greedy group of the regex in parse_frontmatter.  Returns the text before
the first occurrence together with the text after it. -/
def findClose : Str → Option (Str × Str)
  | [] => none
  | c :: rest =>
    if (c :: rest).take 5 = closeMark then some ([], rest.drop 4)
    else (findClose rest).map (fun pr => (c :: pr.1, pr.2))

/-- Split on newline characters, mirroring the Python split method on a
newline separator (the result is always nonempty; separators at the ends
produce empty fields). -/
def splitNl : Str → List Str
  | [] => [[]]
  | c :: rest =>
    if c = '\n' then [] :: splitNl rest
    else
      match splitNl rest with
      | [] => [[c]]
      | l :: ls => (c :: l) :: ls

/-- Field mapping: association list with Python-dict insertion semantics
(first occurrence position kept on overwrite, new keys appended). -/
abbrev Dict := List (Str × Str)

/-- Lookup of a key, first matching entry. -/
def Dict.get? : Dict → Str → Option Str
  | [], _ => none
  | (k, v) :: rest, key => if k = key then some v else Dict.get? rest key

/-- Lookup with a default, mirroring the Python dict get method. -/
def Dict.getD (d : Dict) (key dflt : Str) : Str :=
  (Dict.get? d key).getD dflt

/-- Assignment, mirroring Python dict item assignment: update in place if the
key is present, else append at the end. -/
def Dict.insert : Dict → Str → Str → Dict
  | [], key, v => [(key, v)]
  | (k, w) :: rest, key, v =>
    if k = key then (key, v) :: rest else (k, w) :: Dict.insert rest key v

/-- Value normalization applied by the simple YAML parser:
value.strip().strip(double-quote).strip(single-quote). -/
def parseValue (raw : Str) : Str :=
  stripChars [squote] (stripChars ['"'] (pyStrip raw))

/-- Processing of one interior frontmatter line: lines with a colon are split
at the first colon into a stripped key and a normalized value and assigned
into the dict; lines without a colon are ignored. -/
def parseLine (fm : Dict) (line : Str) : Dict :=
  if line.contains ':' then
    Dict.insert fm (pyStrip (line.takeWhile (· != ':')))
      (parseValue ((line.dropWhile (· != ':')).drop 1))
  else fm

/-- Parse YAML frontmatter from markdown content, mirroring
parse_frontmatter: the content must start with the marker line, the interior
runs up to the first occurrence of the closing pattern, the interior is
stripped and split into lines, each fed to the line parser; the remainder of
the document after the closing marker line is returned untouched.  The
Python function returns a None field mapping on failure; that failure case
is the none of the option here. -/
def parse_frontmatter (content : Str) : Option (Dict × Str) :=
  if content.take 4 = marker then
    match findClose (content.drop 4) with
    | some (fmText, rest) => some ((splitNl (pyStrip fmText)).foldl parseLine [], rest)
    | none => none
  else none

/-- Priority key order used by build_frontmatter. -/
def orderKeys : List Str :=
  ["name".toList, "description".toList, "model".toList, "tools".toList, "memory".toList]

/-- Render one key in the ordered loop of build_frontmatter: the description
value is wrapped in double quotes, every other value is emitted bare. -/
def renderField (k v : Str) : Str :=
  if k = "description".toList then k ++ ':' :: ' ' :: '"' :: (v ++ ['"'])
  else k ++ ':' :: ' ' :: v

/-- Lines produced by the ordered loop of build_frontmatter. -/
def orderedLines (fields : Dict) : List Str :=
  orderKeys.filterMap (fun k => (Dict.get? fields k).map (renderField k))

/-- Lines produced by the trailing loop of build_frontmatter for keys outside
the priority order, in their dict order, always emitted bare. -/
def extraLines (fields : Dict) : List Str :=
  (fields.filter (fun kv => !(orderKeys.contains kv.1))).map
    (fun kv => kv.1 ++ ':' :: ' ' :: kv.2)

/-- Join lines with newline separators, mirroring the Python join with a
newline string. -/
def joinLines : List Str → Str
  | [] => []
  | [l] => l
  | l :: ls => l ++ '\n' :: joinLines ls

/-- Build the YAML frontmatter string from the field dict, mirroring
build_frontmatter: a marker line, the ordered keys, any remaining keys, a
closing marker line, all newline-joined with one trailing newline. -/
def build_frontmatter (fields : Dict) : Str :=
  joinLines (("---".toList) :: ((orderedLines fields ++ extraLines fields) ++ ["---".toList])) ++ ['\n']

/-- Metadata of one fixed-model agent: the tools string and the optional
memory scope, as in the FIXED_MODEL_AGENTS value dicts. -/
structure FixedConfig where
  tools : String
  memory : Option String
deriving DecidableEq

/-- Fixed-model agents table, transcribed entry for entry from
FIXED_MODEL_AGENTS in the source. -/
def FIXED_MODEL_AGENTS : List (String × FixedConfig) := [
  ("orchestration/autonomous-controller.md",    ⟨"Read, Glob, Grep, Bash, Task", some "project"⟩),
  ("orchestration/bug-council-orchestrator.md", ⟨"Read, Glob, Grep, Bash, Task", some "project"⟩),
  ("orchestration/code-review-coordinator.md",  ⟨"Read, Glob, Grep, Bash, Task", none⟩),
  ("orchestration/quality-gate-enforcer.md",    ⟨"Read, Glob, Grep, Bash", some "project"⟩),
  ("orchestration/requirements-validator.md",   ⟨"Read, Glob, Grep, Bash", none⟩),
  ("orchestration/scope-validator.md",          ⟨"Read, Glob, Grep, Bash", none⟩),
  ("orchestration/sprint-loop.md",              ⟨"Read, Glob, Grep, Bash, Task", none⟩),
  ("orchestration/sprint-orchestrator.md",      ⟨"Read, Glob, Grep, Bash, Task", some "project"⟩),
  ("orchestration/task-loop.md",                ⟨"Read, Glob, Grep, Bash, Task", some "project"⟩),
  ("orchestration/track-merger.md",             ⟨"Read, Glob, Grep, Bash, Task", none⟩),
  ("orchestration/workflow-compliance.md",      ⟨"Read, Glob, Grep, Bash", none⟩),
  ("diagnosis/adversarial-tester.md",  ⟨"Read, Glob, Grep, Bash", none⟩),
  ("diagnosis/code-archaeologist.md",  ⟨"Read, Glob, Grep, Bash", none⟩),
  ("diagnosis/pattern-matcher.md",     ⟨"Read, Glob, Grep, Bash", none⟩),
  ("diagnosis/root-cause-analyst.md",  ⟨"Read, Glob, Grep, Bash", none⟩),
  ("diagnosis/systems-thinker.md",     ⟨"Read, Glob, Grep, Bash", none⟩),
  ("backend/api-design-reviewer.md",             ⟨"Read, Glob, Grep", none⟩),
  ("backend/backend-code-reviewer-csharp.md",    ⟨"Read, Glob, Grep", none⟩),
  ("backend/backend-code-reviewer-go.md",        ⟨"Read, Glob, Grep", none⟩),
  ("backend/backend-code-reviewer-java.md",      ⟨"Read, Glob, Grep", none⟩),
  ("backend/backend-code-reviewer-php.md",       ⟨"Read, Glob, Grep", none⟩),
  ("backend/backend-code-reviewer-python.md",    ⟨"Read, Glob, Grep", none⟩),
  ("backend/backend-code-reviewer-ruby.md",      ⟨"Read, Glob, Grep", none⟩),
  ("backend/backend-code-reviewer-typescript.md", ⟨"Read, Glob, Grep", none⟩),
  ("frontend/frontend-code-reviewer.md",         ⟨"Read, Glob, Grep", none⟩),
  ("mobile/android-code-reviewer.md",            ⟨"Read, Glob, Grep", none⟩),
  ("mobile/ios-code-reviewer.md",                ⟨"Read, Glob, Grep", none⟩),
  ("database/sql-code-reviewer.md",              ⟨"Read, Glob, Grep", none⟩),
  ("database/nosql-code-reviewer.md",            ⟨"Read, Glob, Grep", none⟩),
  ("security/compliance-engineer.md",            ⟨"Read, Glob, Grep, Bash", none⟩),
  ("security/mobile-security-auditor.md",        ⟨"Read, Glob, Grep, Bash", none⟩),
  ("security/penetration-tester.md",             ⟨"Read, Glob, Grep, Bash", none⟩),
  ("security/security-auditor-csharp.md",        ⟨"Read, Glob, Grep, Bash", none⟩),
  ("security/security-auditor-go.md",            ⟨"Read, Glob, Grep, Bash", none⟩),
  ("security/security-auditor-java.md",          ⟨"Read, Glob, Grep, Bash", none⟩),
  ("security/security-auditor-php.md",           ⟨"Read, Glob, Grep, Bash", none⟩),
  ("security/security-auditor-python.md",        ⟨"Read, Glob, Grep, Bash", none⟩),
  ("security/security-auditor-ruby.md",          ⟨"Read, Glob, Grep, Bash", none⟩),
  ("security/security-auditor-typescript.md",    ⟨"Read, Glob, Grep, Bash", none⟩),
  ("research/research-agent.md", ⟨"Read, Glob, Grep, Bash, WebSearch, WebFetch", some "project"⟩),
  ("planning/prd-generator.md",       ⟨"Read, Glob, Grep, Bash, Write", none⟩),
  ("planning/sprint-planner.md",      ⟨"Read, Glob, Grep, Bash, Write", none⟩),
  ("planning/task-graph-analyzer.md", ⟨"Read, Glob, Grep, Bash, Write", none⟩),
  ("product/product-manager.md", ⟨"Read, Glob, Grep, Bash, Write", none⟩),
  ("architecture/architect.md", ⟨"Read, Glob, Grep, Bash, Write", none⟩),
  ("quality/test-coordinator.md",        ⟨"Read, Glob, Grep, Bash, Task", none⟩),
  ("quality/refactoring-coordinator.md", ⟨"Read, Glob, Grep, Bash, Task", none⟩),
  ("quality/security-auditor.md",        ⟨"Read, Glob, Grep, Bash", none⟩),
  ("quality/visual-verification-agent.md", ⟨"Read, Glob, Grep, Bash", none⟩),
  ("quality/performance-auditor-android.md",    ⟨"Read, Glob, Grep, Bash", none⟩),
  ("quality/performance-auditor-csharp.md",     ⟨"Read, Glob, Grep, Bash", none⟩),
  ("quality/performance-auditor-go.md",         ⟨"Read, Glob, Grep, Bash", none⟩),
  ("quality/performance-auditor-ios.md",        ⟨"Read, Glob, Grep, Bash", none⟩),
  ("quality/performance-auditor-java.md",       ⟨"Read, Glob, Grep, Bash", none⟩),
  ("quality/performance-auditor-php.md",        ⟨"Read, Glob, Grep, Bash", none⟩),
  ("quality/performance-auditor-python.md",     ⟨"Read, Glob, Grep, Bash", none⟩),
  ("quality/performance-auditor-ruby.md",       ⟨"Read, Glob, Grep, Bash", none⟩),
  ("quality/performance-auditor-typescript.md", ⟨"Read, Glob, Grep, Bash", none⟩),
  ("ux/ux-system-coordinator.md",   ⟨"Read, Glob, Grep, Bash, Task", none⟩),
  ("ux/design-system-architect.md", ⟨"Read, Edit, Write, Glob, Grep, Bash", none⟩),
  ("ux/design-compliance-validator.md", ⟨"Read, Glob, Grep", none⟩)
]

/-- Dynamic-model agents table, transcribed entry for entry from
DYNAMIC_MODEL_AGENTS_TOOLS in the source. -/
def DYNAMIC_MODEL_AGENTS_TOOLS : List (String × String) := [
  ("backend/api-designer.md",              "Read, Edit, Write, Glob, Grep, Bash"),
  ("backend/api-developer-csharp.md",      "Read, Edit, Write, Glob, Grep, Bash"),
  ("backend/api-developer-go.md",          "Read, Edit, Write, Glob, Grep, Bash"),
  ("backend/api-developer-java.md",        "Read, Edit, Write, Glob, Grep, Bash"),
  ("backend/api-developer-php.md",         "Read, Edit, Write, Glob, Grep, Bash"),
  ("backend/api-developer-python.md",      "Read, Edit, Write, Glob, Grep, Bash"),
  ("backend/api-developer-ruby.md",        "Read, Edit, Write, Glob, Grep, Bash"),
  ("backend/api-developer-typescript.md",  "Read, Edit, Write, Glob, Grep, Bash"),
  ("frontend/frontend-designer.md",   "Read, Edit, Write, Glob, Grep, Bash"),
  ("frontend/frontend-developer.md",  "Read, Edit, Write, Glob, Grep, Bash"),
  ("database/database-designer.md",             "Read, Edit, Write, Glob, Grep, Bash"),
  ("database/database-developer-android.md",    "Read, Edit, Write, Glob, Grep, Bash"),
  ("database/database-developer-csharp.md",     "Read, Edit, Write, Glob, Grep, Bash"),
  ("database/database-developer-go.md",         "Read, Edit, Write, Glob, Grep, Bash"),
  ("database/database-developer-ios.md",        "Read, Edit, Write, Glob, Grep, Bash"),
  ("database/database-developer-java.md",       "Read, Edit, Write, Glob, Grep, Bash"),
  ("database/database-developer-php.md",        "Read, Edit, Write, Glob, Grep, Bash"),
  ("database/database-developer-python.md",     "Read, Edit, Write, Glob, Grep, Bash"),
  ("database/database-developer-ruby.md",       "Read, Edit, Write, Glob, Grep, Bash"),
  ("database/database-developer-typescript.md", "Read, Edit, Write, Glob, Grep, Bash"),
  ("mobile/android-designer.md",         "Read, Edit, Write, Glob, Grep, Bash"),
  ("mobile/android-developer.md",        "Read, Edit, Write, Glob, Grep, Bash"),
  ("mobile/ios-designer.md",             "Read, Edit, Write, Glob, Grep, Bash"),
  ("mobile/ios-developer.md",            "Read, Edit, Write, Glob, Grep, Bash"),
  ("mobile/flutter-developer.md",        "Read, Edit, Write, Glob, Grep, Bash"),
  ("mobile/react-native-developer.md",   "Read, Edit, Write, Glob, Grep, Bash"),
  ("python/python-developer-generic.md",  "Read, Edit, Write, Glob, Grep, Bash"),
  ("scripting/shell-developer.md",        "Read, Edit, Write, Glob, Grep, Bash"),
  ("scripting/powershell-developer.md",   "Read, Edit, Write, Glob, Grep, Bash"),
  ("data-ai/data-engineer.md",  "Read, Edit, Write, Glob, Grep, Bash"),
  ("data-ai/ml-engineer.md",    "Read, Edit, Write, Glob, Grep, Bash"),
  ("devops/cicd-specialist.md",        "Read, Edit, Write, Glob, Grep, Bash"),
  ("devops/docker-specialist.md",      "Read, Edit, Write, Glob, Grep, Bash"),
  ("devops/kubernetes-specialist.md",  "Read, Edit, Write, Glob, Grep, Bash"),
  ("devops/mobile-cicd-specialist.md", "Read, Edit, Write, Glob, Grep, Bash"),
  ("devops/terraform-specialist.md",   "Read, Edit, Write, Glob, Grep, Bash"),
  ("infrastructure/configuration-manager.md", "Read, Edit, Write, Glob, Grep, Bash"),
  ("sre/platform-engineer.md",                "Read, Edit, Write, Glob, Grep, Bash"),
  ("sre/site-reliability-engineer.md",        "Read, Edit, Write, Glob, Grep, Bash"),
  ("specialized/observability-engineer.md",   "Read, Edit, Write, Glob, Grep, Bash"),
  ("accessibility/accessibility-specialist.md",        "Read, Edit, Write, Glob, Grep, Bash"),
  ("accessibility/mobile-accessibility-specialist.md", "Read, Edit, Write, Glob, Grep, Bash"),
  ("ux/ux-specialist-web.md",          "Read, Edit, Write, Glob, Grep, Bash"),
  ("ux/ux-specialist-mobile.md",       "Read, Edit, Write, Glob, Grep, Bash"),
  ("ux/ux-specialist-desktop.md",      "Read, Edit, Write, Glob, Grep, Bash"),
  ("ux/design-system-orchestrator.md", "Read, Edit, Write, Glob, Grep, Bash, Task"),
  ("ux/color-palette-specialist.md",   "Read, Edit, Write, Glob, Grep, Bash"),
  ("ux/typography-specialist.md",      "Read, Edit, Write, Glob, Grep, Bash"),
  ("ux/ui-style-curator.md",          "Read, Edit, Write, Glob, Grep, Bash"),
  ("ux/data-visualization-designer.md", "Read, Edit, Write, Glob, Grep, Bash"),
  ("ux/design-drift-detector.md",      "Read, Glob, Grep, Bash"),
  ("quality/test-writer.md",                 "Read, Edit, Write, Glob, Grep, Bash"),
  ("quality/unit-test-writer-csharp.md",     "Read, Edit, Write, Glob, Grep, Bash"),
  ("quality/unit-test-writer-go.md",         "Read, Edit, Write, Glob, Grep, Bash"),
  ("quality/unit-test-writer-java.md",       "Read, Edit, Write, Glob, Grep, Bash"),
  ("quality/unit-test-writer-php.md",        "Read, Edit, Write, Glob, Grep, Bash"),
  ("quality/unit-test-writer-python.md",     "Read, Edit, Write, Glob, Grep, Bash"),
  ("quality/unit-test-writer-ruby.md",       "Read, Edit, Write, Glob, Grep, Bash"),
  ("quality/unit-test-writer-typescript.md",  "Read, Edit, Write, Glob, Grep, Bash"),
  ("quality/e2e-tester.md",                  "Read, Edit, Write, Glob, Grep, Bash"),
  ("quality/mobile-test-writer.md",          "Read, Edit, Write, Glob, Grep, Bash"),
  ("quality/mobile-e2e-tester.md",           "Read, Edit, Write, Glob, Grep, Bash"),
  ("quality/runtime-verifier.md",            "Read, Glob, Grep, Bash"),
  ("quality/documentation-coordinator.md",   "Read, Edit, Write, Glob, Grep, Bash"),
  ("devrel/developer-advocate.md", "Read, Edit, Write, Glob, Grep, Bash"),
  ("support/dependency-manager.md", "Read, Edit, Write, Glob, Grep, Bash")
]

/-- Classification of one document identifier: the policy class together with
its metadata, mirroring the two membership tests in update_agent_file (the
fixed table is consulted first, as in the if/elif chain). -/
inductive Classification
  | fixedPolicy (c : FixedConfig)
  | dynamicPolicy (tools : String)
  | uncategorized
deriving DecidableEq

/-- Pure lookup of the policy class of a relative path. -/
def classify (relPath : String) : Classification :=
  match FIXED_MODEL_AGENTS.lookup relPath with
  | some c => .fixedPolicy c
  | none =>
    match DYNAMIC_MODEL_AGENTS_TOOLS.lookup relPath with
    | some t => .dynamicPolicy t
    | none => .uncategorized

/-- Default execution tier used when a fixed-model agent has no model field,
the second argument of the fm.get call in update_agent_file. -/
def defaultModel : Str := "sonnet".toList

/-- Merge of the parsed fields with the policy-derived fields, mirroring the
construction of new_fm in update_agent_file: name and description are passed
through with empty-string defaults; a fixed-policy document keeps or defaults
its model and gains tools and, when configured, memory; a dynamic-policy
document gains tools only and its model is dropped. -/
def mergeFields (cls : Classification) (fm : Dict) : Dict :=
  let d1 := Dict.insert (Dict.insert [] ("name".toList) (Dict.getD fm ("name".toList) []))
      ("description".toList) (Dict.getD fm ("description".toList) [])
  match cls with
  | .fixedPolicy c =>
    let d3 := Dict.insert (Dict.insert d1 ("model".toList) (Dict.getD fm ("model".toList) defaultModel))
        ("tools".toList) c.tools.toList
    match c.memory with
    | some m => Dict.insert d3 ("memory".toList) m.toList
    | none => d3
  | .dynamicPolicy t => Dict.insert d1 ("tools".toList) t.toList
  | .uncategorized => d1

/-- Outcome of processing one document, as observed by the batch driver:
either new full text to be written, or one of the two untouched-file skip
outcomes (no frontmatter found, or identifier in neither table). -/
inductive ProcessResult
  | updated (text : Str)
  | noHeader
  | uncategorized
deriving DecidableEq

/-- Core of update_agent_file for one document under a given classification:
parse, merge, rebuild, and append the preserved remainder; a failed parse or
an uncategorized identifier yields an untouched-file outcome. -/
def processWith (cls : Classification) (content : Str) : ProcessResult :=
  match parse_frontmatter content with
  | none => .noHeader
  | some (fm, rest) =>
    match cls with
    | .uncategorized => .uncategorized
    | _ => .updated (build_frontmatter (mergeFields cls fm) ++ rest)

/-- Processing of one document addressed by its relative path. -/
def process (relPath : String) (content : Str) : ProcessResult :=
  processWith (classify relPath) content

/-!
Abbreviations for the five schema keys as character lists.
-/

/-- Key of the agent name field. -/
def kName : Str := "name".toList

/-- Key of the description field. -/
def kDesc : Str := "description".toList

/-- Key of the execution-tier field. -/
def kModel : Str := "model".toList

/-- Key of the capability-list field. -/
def kTools : Str := "tools".toList

/-- Key of the memory-scope field. -/
def kMemory : Str := "memory".toList

/-!
Membership lemmas: every strip stage only removes characters, so membership
is preserved downward; parsed values therefore contain no newline.
-/

theorem pyStrip_subset {s : Str} {a : Char} (h : a ∈ pyStrip s) : a ∈ s := by
  unfold pyStrip dropTrailing at h
  rw [List.mem_reverse] at h
  have h2 := (List.dropWhile_sublist _).subset h
  rw [List.mem_reverse] at h2
  exact (List.dropWhile_sublist _).subset h2

theorem stripChars_subset {cs : List Char} {s : Str} {a : Char}
    (h : a ∈ stripChars cs s) : a ∈ s := by
  unfold stripChars dropTrailing at h
  rw [List.mem_reverse] at h
  have h2 := (List.dropWhile_sublist _).subset h
  rw [List.mem_reverse] at h2
  exact (List.dropWhile_sublist _).subset h2

theorem parseValue_subset {s : Str} {a : Char} (h : a ∈ parseValue s) : a ∈ s :=
  pyStrip_subset (stripChars_subset (stripChars_subset h))

/-- Absence of newline characters in a piece of text. -/
abbrev noNl (v : Str) : Prop := '\n' ∉ v

theorem Dict.mem_insert {d : Dict} {k v : Str} {p : Str × Str}
    (h : p ∈ Dict.insert d k v) : p = (k, v) ∨ p ∈ d := by
  induction d with
  | nil => simp only [Dict.insert, List.mem_singleton] at h; exact Or.inl h
  | cons e rest ih =>
    obtain ⟨k0, w⟩ := e
    unfold Dict.insert at h
    split at h
    · rcases List.mem_cons.mp h with h | h
      · exact Or.inl h
      · exact Or.inr (List.mem_cons_of_mem _ h)
    · rcases List.mem_cons.mp h with h | h
      · exact Or.inr (by simp [h])
      · rcases ih h with h | h
        · exact Or.inl h
        · exact Or.inr (List.mem_cons_of_mem _ h)

theorem Dict.get?_mem {d : Dict} {k v : Str} (h : Dict.get? d k = some v) :
    (k, v) ∈ d := by
  induction d with
  | nil => simp [Dict.get?] at h
  | cons e rest ih =>
    obtain ⟨k0, w⟩ := e
    unfold Dict.get? at h
    split at h
    · rename_i hk
      injection h with h2
      subst hk; subst h2
      exact List.mem_cons_self _ _
    · exact List.mem_cons_of_mem _ (ih h)

theorem parseLine_noNl {d : Dict} {line : Str}
    (hd : ∀ p ∈ d, noNl p.2) (hl : noNl line) :
    ∀ p ∈ parseLine d line, noNl p.2 := by
  intro p hp
  unfold parseLine at hp
  split at hp
  · rcases Dict.mem_insert hp with h | h
    · subst h
      intro hc
      exact hl ((List.dropWhile_sublist _).subset (List.mem_of_mem_drop (parseValue_subset hc)))
    · exact hd p h
  · exact hd p hp

theorem parseLines_noNl {lines : List Str} {d : Dict}
    (hd : ∀ p ∈ d, noNl p.2) (hl : ∀ l ∈ lines, noNl l) :
    ∀ p ∈ lines.foldl parseLine d, noNl p.2 := by
  induction lines generalizing d with
  | nil => simpa using hd
  | cons l ls ih =>
    exact ih (parseLine_noNl hd (hl l (by simp))) (fun x hx => hl x (by simp [hx]))

/-!
Lemmas about the newline splitter.
-/

theorem splitNl_ne_nil (s : Str) : splitNl s ≠ [] := by
  cases s with
  | nil => simp [splitNl]
  | cons c rest =>
    unfold splitNl
    split
    · simp
    · split <;> simp

theorem mem_splitNl_noNl {s : Str} : ∀ l ∈ splitNl s, noNl l := by
  induction s with
  | nil =>
    intro l hl
    simp only [splitNl, List.mem_singleton] at hl
    simp [hl, noNl]
  | cons c rest ih =>
    intro l hl
    unfold splitNl at hl
    split at hl
    · rcases List.mem_cons.mp hl with h | h
      · simp [h, noNl]
      · exact ih l h
    · rename_i hc
      rcases hsp : splitNl rest with _ | ⟨l0, ls⟩
      · exact absurd hsp (splitNl_ne_nil rest)
      · rw [hsp] at hl
        rcases List.mem_cons.mp hl with h | h
        · subst h
          intro hmem
          rcases List.mem_cons.mp hmem with h | h
          · exact hc h.symm
          · exact ih l0 (hsp ▸ List.mem_cons_self _ _) h
        · exact ih l (hsp ▸ List.mem_cons_of_mem _ h)

theorem splitNl_of_noNl {l : Str} (h : noNl l) : splitNl l = [l] := by
  induction l with
  | nil => rfl
  | cons c rest ih =>
    have hc : ¬(c = '\n') := fun e => h (by simp [e])
    have hr : splitNl rest = [rest] := ih (fun e => h (List.mem_cons_of_mem _ e))
    unfold splitNl
    rw [if_neg hc, hr]

theorem splitNl_append_cons {l t : Str} (h : noNl l) :
    splitNl (l ++ '\n' :: t) = l :: splitNl t := by
  induction l with
  | nil => simp [splitNl]
  | cons c rest ih =>
    have hc : ¬(c = '\n') := fun e => h (by simp [e])
    have hr := ih (fun e => h (List.mem_cons_of_mem _ e))
    show splitNl (c :: (rest ++ '\n' :: t)) = _
    conv_lhs => rw [splitNl]
    rw [if_neg hc, hr]

theorem splitNl_joinLines {lines : List Str} (hne : lines ≠ [])
    (h : ∀ l ∈ lines, noNl l) : splitNl (joinLines lines) = lines := by
  induction lines with
  | nil => exact absurd rfl hne
  | cons l ls ih =>
    cases ls with
    | nil => simpa [joinLines] using splitNl_of_noNl (h l (by simp))
    | cons l2 ls2 =>
      rw [show joinLines (l :: l2 :: ls2) = l ++ '\n' :: joinLines (l2 :: ls2) from rfl,
        splitNl_append_cons (h l (by simp)), ih (by simp) (fun x hx => h x (by simp [hx]))]

/-!
Lemmas about the scan for the closing marker.
-/

theorem findClose_cons_ne {c : Char} {s : Str} (h : (c :: s).take 5 ≠ closeMark) :
    findClose (c :: s) = (findClose s).map (fun pr => (c :: pr.1, pr.2)) := by
  conv_lhs => rw [findClose]
  rw [if_neg h]

theorem findClose_append_line {l s : Str} (h : noNl l) :
    findClose (l ++ s) = (findClose s).map (fun pr => (l ++ pr.1, pr.2)) := by
  induction l with
  | nil => cases hfc : findClose s <;> simp [hfc]
  | cons c rest ih =>
    have hc : ¬(c = '\n') := fun e => h (by simp [e])
    have hne : ((c :: (rest ++ s)).take 5 ≠ closeMark) := by
      intro he
      have hh : some c = some '\n' := congrArg List.head? he
      exact hc (by injection hh)
    rw [List.cons_append, findClose_cons_ne hne, ih (fun e => h (List.mem_cons_of_mem _ e))]
    cases hfc : findClose s <;> simp [hfc]

theorem findClose_closeMark (B : Str) : findClose (closeMark ++ B) = some ([], B) := rfl

/-- Lines that can appear inside a rebuilt header block: nonempty, free of
newlines, and not starting with a dash (so that no interior line can be
mistaken for the closing marker line). -/
def goodLine (l : Str) : Prop := l ≠ [] ∧ noNl l ∧ l.head? ≠ some '-'

theorem joinLines_head_cons (c : Char) (t : Str) (ls : List Str) :
    ∃ u, joinLines ((c :: t) :: ls) = c :: u := by
  cases ls with
  | nil => exact ⟨t, rfl⟩
  | cons a as => exact ⟨t ++ '\n' :: joinLines (a :: as), rfl⟩

theorem findClose_join {lines : List Str} {B : Str} (hne : lines ≠ [])
    (h : ∀ l ∈ lines, goodLine l) :
    findClose (joinLines lines ++ (closeMark ++ B)) = some (joinLines lines, B) := by
  induction lines with
  | nil => exact absurd rfl hne
  | cons l ls ih =>
    cases ls with
    | nil =>
      have hl := h l (by simp)
      rw [show joinLines [l] = l from rfl, findClose_append_line hl.2.1, findClose_closeMark]
      simp
    | cons l2 ls2 =>
      have hl := h l (by simp)
      have hl2 := h l2 (by simp)
      obtain ⟨c, t, hct⟩ : ∃ c t, l2 = c :: t := by
        cases hx : l2 with
        | nil => exact absurd hx hl2.1
        | cons c t => exact ⟨c, t, rfl⟩
      subst hct
      have hcd : c ≠ '-' := by
        intro e
        exact hl2.2.2 (by rw [e]; rfl)
      obtain ⟨u, hu⟩ := joinLines_head_cons c t ls2
      have hX : joinLines ((c :: t) :: ls2) ++ (closeMark ++ B) = c :: (u ++ (closeMark ++ B)) := by
        rw [hu]; rfl
      have hnt : (('\n' :: (joinLines ((c :: t) :: ls2) ++ (closeMark ++ B))).take 5 ≠ closeMark) := by
        rw [hX]
        intro he
        have hh : some c = some '-' := congrArg (fun x => x.tail.head?) he
        exact hcd (by injection hh)
      rw [show joinLines (l :: (c :: t) :: ls2) = l ++ '\n' :: joinLines ((c :: t) :: ls2) from rfl,
        List.append_assoc, findClose_append_line hl.2.1, List.cons_append,
        findClose_cons_ne hnt, ih (by simp) (fun x hx => h x (by simp [hx]))]
      rfl

/-!
Conditions under which stripping is a no-op, and the value-goodness
predicate satisfied by every policy-table string.
-/

theorem dropWhile_cons_false {p : Char → Bool} {c : Char} {s : Str} (h : p c = false) :
    (c :: s).dropWhile p = c :: s := by
  simp [List.dropWhile_cons, h]

theorem pyStrip_eq_self {s : Str} {c d : Char} (h1 : s.head? = some c) (hc : isWs c = false)
    (h2 : s.getLast? = some d) (hd : isWs d = false) : pyStrip s = s := by
  unfold pyStrip dropTrailing
  have e1 : s.dropWhile isWs = s := by
    cases s with
    | nil => simp at h1
    | cons a tl =>
      have ha : a = c := by injection h1
      exact dropWhile_cons_false (ha ▸ hc)
  rw [e1]
  have e2 : s.reverse.dropWhile isWs = s.reverse := by
    cases hs : s.reverse with
    | nil => simp
    | cons a tl =>
      have hrh : s.reverse.head? = some a := by rw [hs]; rfl
      rw [List.head?_reverse, h2] at hrh
      have ha : d = a := by injection hrh
      exact dropWhile_cons_false (ha ▸ hd)
  rw [e2, List.reverse_reverse]

/-- Check that the last character exists and is not whitespace. -/
def lastNonWs (t : Str) : Bool :=
  match t.getLast? with
  | some c => !(isWs c)
  | none => false

/-- Goodness of a serialized field value: no newline, stable under the value
normalization of the parser, ending in a non-whitespace character (hence
nonempty).  Every tools and memory string in the two policy tables satisfies
this. -/
def goodVal (t : Str) : Bool :=
  !(t.contains '\n') && (parseValue t == t) && lastNonWs t

theorem goodVal_noNl {t : Str} (h : goodVal t = true) : noNl t := by
  simp [goodVal] at h
  exact h.1.1

theorem goodVal_reparse {t : Str} (h : goodVal t = true) : parseValue t = t := by
  simp only [goodVal, Bool.and_eq_true, beq_iff_eq] at h
  exact h.1.2

theorem goodVal_ne_nil {t : Str} (h : goodVal t = true) : t ≠ [] := by
  intro he
  subst he
  simp [goodVal, lastNonWs] at h

theorem goodVal_last {t : Str} (h : goodVal t = true) :
    ∃ d, t.getLast? = some d ∧ isWs d = false := by
  simp only [goodVal, Bool.and_eq_true] at h
  have h2 := h.2
  unfold lastNonWs at h2
  split at h2
  · rename_i d hd
    exact ⟨d, hd, by simpa using h2⟩
  · simp at h2

/-!
Lookup and membership in the policy tables.
-/

theorem lookup_mem {α β : Type} [BEq α] [LawfulBEq α] {l : List (α × β)} {k : α} {v : β}
    (h : l.lookup k = some v) : (k, v) ∈ l := by
  induction l with
  | nil => simp [List.lookup] at h
  | cons e rest ih =>
    obtain ⟨k0, w⟩ := e
    rw [List.lookup] at h
    rcases hbeq : (k == k0) with _ | _
    · rw [hbeq] at h
      exact List.mem_cons_of_mem _ (ih h)
    · rw [hbeq] at h
      injection h with h2
      have : k = k0 := eq_of_beq hbeq
      rw [this, h2]
      exact List.mem_cons_self _ _

/-!
Values coming out of the parser contain no newline.
-/

theorem parse_frontmatter_noNl {content : Str} {fm : Dict} {rest : Str}
    (h : parse_frontmatter content = some (fm, rest)) : ∀ p ∈ fm, noNl p.2 := by
  unfold parse_frontmatter at h
  split at h
  · rcases hfc : findClose (content.drop 4) with _ | ⟨fmText, r⟩
    · rw [hfc] at h; simp at h
    · rw [hfc] at h
      injection h with h2
      have hfm : fm = (splitNl (pyStrip fmText)).foldl parseLine [] := by
        have := congrArg Prod.fst h2
        exact this.symm
      rw [hfm]
      exact parseLines_noNl (by simp) (fun l hl => mem_splitNl_noNl l hl)
  · simp at h

theorem getD_noNl {fm : Dict} (hfm : ∀ p ∈ fm, noNl p.2) {k dflt : Str}
    (hd : noNl dflt) : noNl (Dict.getD fm k dflt) := by
  unfold Dict.getD
  cases hg : Dict.get? fm k with
  | none => simpa using hd
  | some v => simpa using hfm (k, v) (Dict.get?_mem hg)

/-!
Re-parsing a rebuilt header block recovers the field dict, with each value
sent through the value normalization once more.  One lemma per shape of the
merged dict (dynamic; fixed without memory; fixed with memory).
-/

theorem noNl_concat {u v : Str} (hu : noNl u) (hv : noNl v) : noNl (u ++ v) := by
  intro h
  rcases List.mem_append.mp h with h | h
  exacts [hu h, hv h]

theorem noNl_cons {c : Char} {u : Str} (hc : ¬(c = '\n')) (hu : noNl u) : noNl (c :: u) := by
  intro h
  rcases List.mem_cons.mp h with h | h
  exacts [hc h.symm, hu h]

theorem goodLine_of_head {c : Char} {u : Str} (hc1 : c ≠ '-') (hn : noNl (c :: u)) :
    goodLine (c :: u) :=
  ⟨by simp, hn, by simp [hc1]⟩

theorem getLast?_cons_of {a : Char} {l : Str} {d : Char} (h : l.getLast? = some d) :
    (a :: l).getLast? = some d := by
  rw [show (a :: l) = [a] ++ l from rfl, List.getLast?_append, h]
  rfl

theorem getLast?_append_of {x l : Str} {d : Char} (h : l.getLast? = some d) :
    (x ++ l).getLast? = some d := by
  rw [List.getLast?_append, h]
  rfl

theorem parse_frontmatter_marker (X : Str) :
    parse_frontmatter ('-' :: '-' :: '-' :: '\n' :: X) =
      match findClose X with
      | some (fmText, rest) => some ((splitNl (pyStrip fmText)).foldl parseLine [], rest)
      | none => none := by
  unfold parse_frontmatter
  rw [if_pos (by rfl)]
  rfl

theorem reparse_dyn (a b t rest : Str) (ha : noNl a) (hb : noNl b) (ht : goodVal t = true) :
    parse_frontmatter (build_frontmatter [(kName, a), (kDesc, b), (kTools, t)] ++ rest) =
      some ([(kName, parseValue a), (kDesc, parseValue ('"' :: (b ++ ['"']))),
        (kTools, parseValue t)], rest) := by
  have hg1 : goodLine (renderField kName a) :=
    show goodLine ('n' :: ("ame: ".toList ++ a)) from
      goodLine_of_head (by decide) (noNl_cons (by decide) (noNl_concat (by decide) ha))
  have hg2 : goodLine (renderField kDesc b) :=
    show goodLine ('d' :: ("escription: \"".toList ++ (b ++ ['"']))) from
      goodLine_of_head (by decide)
        (noNl_cons (by decide) (noNl_concat (by decide) (noNl_concat hb (by decide))))
  have hg3 : goodLine (renderField kTools t) :=
    show goodLine ('t' :: ("ools: ".toList ++ t)) from
      goodLine_of_head (by decide)
        (noNl_cons (by decide) (noNl_concat (by decide) (goodVal_noNl ht)))
  have hgood : ∀ l ∈ [renderField kName a, renderField kDesc b, renderField kTools t],
      goodLine l := by
    intro l hl
    rcases List.mem_cons.mp hl with h | hl
    · exact h ▸ hg1
    rcases List.mem_cons.mp hl with h | hl
    · exact h ▸ hg2
    rcases List.mem_cons.mp hl with h | hl
    · exact h ▸ hg3
    · exact absurd hl (List.not_mem_nil l)
  have hEq : build_frontmatter [(kName, a), (kDesc, b), (kTools, t)] ++ rest =
      '-' :: '-' :: '-' :: '\n' ::
        (joinLines [renderField kName a, renderField kDesc b, renderField kTools t]
          ++ (closeMark ++ rest)) := by
    simp [build_frontmatter, orderedLines, extraLines, orderKeys, joinLines, closeMark,
      Dict.get?, kName, kDesc, kTools, List.append_assoc]
  obtain ⟨dch, hdl, hdw⟩ := goodVal_last ht
  have h3 : (renderField kTools t).getLast? = some dch := by
    show ("tools: ".toList ++ t).getLast? = some dch
    exact getLast?_append_of hdl
  have hJl : (joinLines [renderField kName a, renderField kDesc b,
      renderField kTools t]).getLast? = some dch := by
    show (renderField kName a ++ ('\n' :: (renderField kDesc b ++ ('\n' ::
      renderField kTools t)))).getLast? = some dch
    exact getLast?_append_of (getLast?_cons_of (getLast?_append_of (getLast?_cons_of h3)))
  have hps : pyStrip (joinLines [renderField kName a, renderField kDesc b,
      renderField kTools t]) = joinLines [renderField kName a, renderField kDesc b,
      renderField kTools t] :=
    pyStrip_eq_self (c := 'n') (d := dch) rfl (by decide) hJl hdw
  have hsplit : splitNl (joinLines [renderField kName a, renderField kDesc b,
      renderField kTools t]) = [renderField kName a, renderField kDesc b,
      renderField kTools t] :=
    splitNl_joinLines (by simp) (fun l hl => (hgood l hl).2.1)
  rw [hEq, parse_frontmatter_marker, findClose_join (by simp) hgood]
  show some ((splitNl (pyStrip (joinLines [renderField kName a, renderField kDesc b,
    renderField kTools t]))).foldl parseLine [], rest) = _
  rw [hps, hsplit]
  rfl

theorem reparse_fixed (a b m t rest : Str) (ha : noNl a) (hb : noNl b) (hm : noNl m)
    (ht : goodVal t = true) :
    parse_frontmatter
        (build_frontmatter [(kName, a), (kDesc, b), (kModel, m), (kTools, t)] ++ rest) =
      some ([(kName, parseValue a), (kDesc, parseValue ('"' :: (b ++ ['"']))),
        (kModel, parseValue m), (kTools, parseValue t)], rest) := by
  have hg1 : goodLine (renderField kName a) :=
    show goodLine ('n' :: ("ame: ".toList ++ a)) from
      goodLine_of_head (by decide) (noNl_cons (by decide) (noNl_concat (by decide) ha))
  have hg2 : goodLine (renderField kDesc b) :=
    show goodLine ('d' :: ("escription: \"".toList ++ (b ++ ['"']))) from
      goodLine_of_head (by decide)
        (noNl_cons (by decide) (noNl_concat (by decide) (noNl_concat hb (by decide))))
  have hgm : goodLine (renderField kModel m) :=
    show goodLine ('m' :: ("odel: ".toList ++ m)) from
      goodLine_of_head (by decide) (noNl_cons (by decide) (noNl_concat (by decide) hm))
  have hg3 : goodLine (renderField kTools t) :=
    show goodLine ('t' :: ("ools: ".toList ++ t)) from
      goodLine_of_head (by decide)
        (noNl_cons (by decide) (noNl_concat (by decide) (goodVal_noNl ht)))
  have hgood : ∀ l ∈ [renderField kName a, renderField kDesc b, renderField kModel m,
      renderField kTools t], goodLine l := by
    intro l hl
    rcases List.mem_cons.mp hl with h | hl
    · exact h ▸ hg1
    rcases List.mem_cons.mp hl with h | hl
    · exact h ▸ hg2
    rcases List.mem_cons.mp hl with h | hl
    · exact h ▸ hgm
    rcases List.mem_cons.mp hl with h | hl
    · exact h ▸ hg3
    · exact absurd hl (List.not_mem_nil l)
  have hEq : build_frontmatter [(kName, a), (kDesc, b), (kModel, m), (kTools, t)] ++ rest =
      '-' :: '-' :: '-' :: '\n' ::
        (joinLines [renderField kName a, renderField kDesc b, renderField kModel m,
          renderField kTools t] ++ (closeMark ++ rest)) := by
    simp [build_frontmatter, orderedLines, extraLines, orderKeys, joinLines, closeMark,
      Dict.get?, kName, kDesc, kModel, kTools, List.append_assoc]
  obtain ⟨dch, hdl, hdw⟩ := goodVal_last ht
  have h3 : (renderField kTools t).getLast? = some dch := by
    show ("tools: ".toList ++ t).getLast? = some dch
    exact getLast?_append_of hdl
  have hJl : (joinLines [renderField kName a, renderField kDesc b, renderField kModel m,
      renderField kTools t]).getLast? = some dch := by
    show (renderField kName a ++ ('\n' :: (renderField kDesc b ++ ('\n' ::
      (renderField kModel m ++ ('\n' :: renderField kTools t)))))).getLast? = some dch
    exact getLast?_append_of (getLast?_cons_of (getLast?_append_of (getLast?_cons_of
      (getLast?_append_of (getLast?_cons_of h3)))))
  have hps : pyStrip (joinLines [renderField kName a, renderField kDesc b,
      renderField kModel m, renderField kTools t]) =
      joinLines [renderField kName a, renderField kDesc b, renderField kModel m,
      renderField kTools t] :=
    pyStrip_eq_self (c := 'n') (d := dch) rfl (by decide) hJl hdw
  have hsplit : splitNl (joinLines [renderField kName a, renderField kDesc b,
      renderField kModel m, renderField kTools t]) =
      [renderField kName a, renderField kDesc b, renderField kModel m,
      renderField kTools t] :=
    splitNl_joinLines (by simp) (fun l hl => (hgood l hl).2.1)
  rw [hEq, parse_frontmatter_marker, findClose_join (by simp) hgood]
  show some ((splitNl (pyStrip (joinLines [renderField kName a, renderField kDesc b,
    renderField kModel m, renderField kTools t]))).foldl parseLine [], rest) = _
  rw [hps, hsplit]
  rfl

theorem reparse_fixed_mem (a b m t w rest : Str) (ha : noNl a) (hb : noNl b) (hm : noNl m)
    (ht : goodVal t = true) (hw : goodVal w = true) :
    parse_frontmatter
        (build_frontmatter [(kName, a), (kDesc, b), (kModel, m), (kTools, t), (kMemory, w)]
          ++ rest) =
      some ([(kName, parseValue a), (kDesc, parseValue ('"' :: (b ++ ['"']))),
        (kModel, parseValue m), (kTools, parseValue t), (kMemory, parseValue w)], rest) := by
  have hg1 : goodLine (renderField kName a) :=
    show goodLine ('n' :: ("ame: ".toList ++ a)) from
      goodLine_of_head (by decide) (noNl_cons (by decide) (noNl_concat (by decide) ha))
  have hg2 : goodLine (renderField kDesc b) :=
    show goodLine ('d' :: ("escription: \"".toList ++ (b ++ ['"']))) from
      goodLine_of_head (by decide)
        (noNl_cons (by decide) (noNl_concat (by decide) (noNl_concat hb (by decide))))
  have hgm : goodLine (renderField kModel m) :=
    show goodLine ('m' :: ("odel: ".toList ++ m)) from
      goodLine_of_head (by decide) (noNl_cons (by decide) (noNl_concat (by decide) hm))
  have hg3 : goodLine (renderField kTools t) :=
    show goodLine ('t' :: ("ools: ".toList ++ t)) from
      goodLine_of_head (by decide)
        (noNl_cons (by decide) (noNl_concat (by decide) (goodVal_noNl ht)))
  have hgw : goodLine (renderField kMemory w) :=
    show goodLine ('m' :: ("emory: ".toList ++ w)) from
      goodLine_of_head (by decide)
        (noNl_cons (by decide) (noNl_concat (by decide) (goodVal_noNl hw)))
  have hgood : ∀ l ∈ [renderField kName a, renderField kDesc b, renderField kModel m,
      renderField kTools t, renderField kMemory w], goodLine l := by
    intro l hl
    rcases List.mem_cons.mp hl with h | hl
    · exact h ▸ hg1
    rcases List.mem_cons.mp hl with h | hl
    · exact h ▸ hg2
    rcases List.mem_cons.mp hl with h | hl
    · exact h ▸ hgm
    rcases List.mem_cons.mp hl with h | hl
    · exact h ▸ hg3
    rcases List.mem_cons.mp hl with h | hl
    · exact h ▸ hgw
    · exact absurd hl (List.not_mem_nil l)
  have hEq : build_frontmatter [(kName, a), (kDesc, b), (kModel, m), (kTools, t),
      (kMemory, w)] ++ rest =
      '-' :: '-' :: '-' :: '\n' ::
        (joinLines [renderField kName a, renderField kDesc b, renderField kModel m,
          renderField kTools t, renderField kMemory w] ++ (closeMark ++ rest)) := by
    simp [build_frontmatter, orderedLines, extraLines, orderKeys, joinLines, closeMark,
      Dict.get?, kName, kDesc, kModel, kTools, kMemory, List.append_assoc]
  obtain ⟨dch, hdl, hdw⟩ := goodVal_last hw
  have h3 : (renderField kMemory w).getLast? = some dch := by
    show ("memory: ".toList ++ w).getLast? = some dch
    exact getLast?_append_of hdl
  have hJl : (joinLines [renderField kName a, renderField kDesc b, renderField kModel m,
      renderField kTools t, renderField kMemory w]).getLast? = some dch := by
    show (renderField kName a ++ ('\n' :: (renderField kDesc b ++ ('\n' ::
      (renderField kModel m ++ ('\n' :: (renderField kTools t ++ ('\n' ::
      renderField kMemory w)))))))).getLast? = some dch
    exact getLast?_append_of (getLast?_cons_of (getLast?_append_of (getLast?_cons_of
      (getLast?_append_of (getLast?_cons_of (getLast?_append_of (getLast?_cons_of h3)))))))
  have hps : pyStrip (joinLines [renderField kName a, renderField kDesc b,
      renderField kModel m, renderField kTools t, renderField kMemory w]) =
      joinLines [renderField kName a, renderField kDesc b, renderField kModel m,
      renderField kTools t, renderField kMemory w] :=
    pyStrip_eq_self (c := 'n') (d := dch) rfl (by decide) hJl hdw
  have hsplit : splitNl (joinLines [renderField kName a, renderField kDesc b,
      renderField kModel m, renderField kTools t, renderField kMemory w]) =
      [renderField kName a, renderField kDesc b, renderField kModel m,
      renderField kTools t, renderField kMemory w] :=
    splitNl_joinLines (by simp) (fun l hl => (hgood l hl).2.1)
  rw [hEq, parse_frontmatter_marker, findClose_join (by simp) hgood]
  show some ((splitNl (pyStrip (joinLines [renderField kName a, renderField kDesc b,
    renderField kModel m, renderField kTools t, renderField kMemory w]))).foldl
      parseLine [], rest) = _
  rw [hps, hsplit]
  rfl

/-!
Every string carried by a policy-table entry is a good serialized value.
-/

/-- Goodness of an optional memory scope. -/
def memGood : Option String → Bool
  | some m => goodVal m.toList
  | none => true

/-- Goodness of the strings carried by one classification. -/
def clsGood : Classification → Prop
  | .fixedPolicy c => goodVal c.tools.toList = true ∧ memGood c.memory = true
  | .dynamicPolicy t => goodVal t.toList = true
  | .uncategorized => True

theorem classify_clsGood (p : String) : clsGood (classify p) := by
  unfold classify
  cases hf : FIXED_MODEL_AGENTS.lookup p with
  | some c =>
    have hmem := lookup_mem hf
    have hall : ∀ e ∈ FIXED_MODEL_AGENTS,
        goodVal e.2.tools.toList = true ∧ memGood e.2.memory = true := by decide
    exact hall _ hmem
  | none =>
    cases hd : DYNAMIC_MODEL_AGENTS_TOOLS.lookup p with
    | some t =>
      have hmem := lookup_mem hd
      have hall : ∀ e ∈ DYNAMIC_MODEL_AGENTS_TOOLS, goodVal e.2.toList = true := by decide
      exact hall _ hmem
    | none => trivial

theorem processWith_some {cls : Classification} (hcls : cls ≠ .uncategorized)
    {text : Str} {fm : Dict} {rest : Str}
    (hp : parse_frontmatter text = some (fm, rest)) :
    processWith cls text = .updated (build_frontmatter (mergeFields cls fm) ++ rest) := by
  unfold processWith
  rw [hp]
  cases cls with
  | uncategorized => exact absurd rfl hcls
  | fixedPolicy c => rfl
  | dynamicPolicy t => rfl

theorem take4_shape {text : Str} (h : text.take 4 = marker) :
    ∃ r, text = '-' :: '-' :: '-' :: '\n' :: r := by
  cases text with
  | nil => exact absurd (h : ([] : Str) = marker) (by decide)
  | cons a t1 =>
    have h1 : a :: t1.take 3 = marker := h
    injection h1 with ha h1
    cases t1 with
    | nil => exact absurd (h1 : ([] : Str) = ['-', '-', '\n']) (by simp)
    | cons b t2 =>
      have h2 : b :: t2.take 2 = ['-', '-', '\n'] := h1
      injection h2 with hb h2
      cases t2 with
      | nil => exact absurd (h2 : ([] : Str) = ['-', '\n']) (by simp)
      | cons c t3 =>
        have h3 : c :: t3.take 1 = ['-', '\n'] := h2
        injection h3 with hc h3
        cases t3 with
        | nil => exact absurd (h3 : ([] : Str) = ['\n']) (by simp)
        | cons d t4 =>
          have h4 : d :: t4.take 0 = ['\n'] := h3
          injection h4 with hd h4
          exact ⟨t4, by rw [ha, hb, hc, hd]⟩

/-!
Claim theorems.
-/

/-- C9: the two static policy mappings are disjoint: for every identifier, at
least one of the two tables has no entry for it, so classification assigns
every identifier at most one policy class. -/
theorem c9_tables_disjoint (id : String) :
    FIXED_MODEL_AGENTS.lookup id = none ∨ DYNAMIC_MODEL_AGENTS_TOOLS.lookup id = none := by
  cases hf : FIXED_MODEL_AGENTS.lookup id with
  | none => exact Or.inl rfl
  | some c =>
    right
    have hmem := lookup_mem hf
    have hall : ∀ e ∈ FIXED_MODEL_AGENTS,
        DYNAMIC_MODEL_AGENTS_TOOLS.lookup e.1 = none := by decide
    exact hall _ hmem

/-- C10: for every document classified FixedPolicy or DynamicPolicy, the
merged field set only contains keys of the priority order (name, description,
model, tools, memory); every pre-existing field outside that set is dropped
by the merge, so the trailing loop of the serializer emits no line. -/
theorem c10_closed_keys (cls : Classification) (fm : Dict) (hcls : cls ≠ .uncategorized) :
    (∀ kv ∈ mergeFields cls fm, orderKeys.contains kv.1 = true) ∧
    extraLines (mergeFields cls fm) = [] := by
  cases cls with
  | uncategorized => exact absurd rfl hcls
  | dynamicPolicy t =>
    refine ⟨?_, rfl⟩
    intro kv hkv
    rcases List.mem_cons.mp hkv with h | hkv
    · rw [h]; rfl
    rcases List.mem_cons.mp hkv with h | hkv
    · rw [h]; rfl
    rcases List.mem_cons.mp hkv with h | hkv
    · rw [h]; rfl
    · exact absurd hkv (List.not_mem_nil kv)
  | fixedPolicy c =>
    obtain ⟨ct, cm⟩ := c
    cases cm with
    | none =>
      refine ⟨?_, rfl⟩
      intro kv hkv
      rcases List.mem_cons.mp hkv with h | hkv
      · rw [h]; rfl
      rcases List.mem_cons.mp hkv with h | hkv
      · rw [h]; rfl
      rcases List.mem_cons.mp hkv with h | hkv
      · rw [h]; rfl
      rcases List.mem_cons.mp hkv with h | hkv
      · rw [h]; rfl
      · exact absurd hkv (List.not_mem_nil kv)
    | some w =>
      refine ⟨?_, rfl⟩
      intro kv hkv
      rcases List.mem_cons.mp hkv with h | hkv
      · rw [h]; rfl
      rcases List.mem_cons.mp hkv with h | hkv
      · rw [h]; rfl
      rcases List.mem_cons.mp hkv with h | hkv
      · rw [h]; rfl
      rcases List.mem_cons.mp hkv with h | hkv
      · rw [h]; rfl
      rcases List.mem_cons.mp hkv with h | hkv
      · rw [h]; rfl
      · exact absurd hkv (List.not_mem_nil kv)

/-- C10 witness at a concrete classification and field set. -/
theorem c10_witness :
    Classification.dynamicPolicy "Read" ≠ Classification.uncategorized ∧
    ((∀ kv ∈ mergeFields (.dynamicPolicy "Read") [(kMemory, "x".toList)],
      orderKeys.contains kv.1 = true) ∧
    extraLines (mergeFields (.dynamicPolicy "Read") [(kMemory, "x".toList)]) = []) :=
  ⟨by decide, c10_closed_keys (.dynamicPolicy "Read") [(kMemory, "x".toList)] (by decide)⟩

/-- C7: a document whose first line is not the marker line is given the
NoHeader outcome under every classification, and a document whose identifier
is in neither policy table is never given an updated text: it yields the
Uncategorized outcome when its header parses and the NoHeader outcome
otherwise, so in both cases the file is left untouched. -/
theorem c7_untouched :
    (∀ (cls : Classification) (text : Str),
      text.takeWhile (· != '\n') ≠ "---".toList → processWith cls text = .noHeader) ∧
    (∀ (relPath : String) (text : Str), classify relPath = .uncategorized →
      ((parse_frontmatter text).isSome → process relPath text = .uncategorized) ∧
      ∀ out, process relPath text ≠ .updated out) := by
  constructor
  · intro cls text hfl
    have hm4 : text.take 4 ≠ marker := by
      intro h
      obtain ⟨r, hr⟩ := take4_shape h
      exact hfl (by rw [hr]; rfl)
    unfold processWith parse_frontmatter
    rw [if_neg hm4]
  · intro relPath text hcls
    unfold process
    rw [hcls]
    unfold processWith
    cases hp : parse_frontmatter text with
    | none =>
      exact ⟨fun h => absurd h (by simp), fun out h => ProcessResult.noConfusion h⟩
    | some pr =>
      exact ⟨fun _ => rfl, fun out h => ProcessResult.noConfusion h⟩

/-- C7 witness at concrete inputs: a document with no leading marker, and an
identifier outside both tables with a parseable header. -/
theorem c7_witness :
    (("hello\n".toList : Str).takeWhile (· != '\n') ≠ "---".toList ∧
      processWith (.dynamicPolicy "Read") ("hello\n".toList) = .noHeader) ∧
    (classify "unknown/agent.md" = .uncategorized ∧
      (parse_frontmatter ("---\nname: a\n---\nB".toList)).isSome ∧
      process "unknown/agent.md" ("---\nname: a\n---\nB".toList) = .uncategorized) :=
  ⟨⟨by decide, c7_untouched.1 (.dynamicPolicy "Read") ("hello\n".toList) (by decide)⟩,
    ⟨by decide, by decide,
      (c7_untouched.2 "unknown/agent.md" ("---\nname: a\n---\nB".toList) (by decide)).1
        (by decide)⟩⟩

/-- C5: the concrete scenario of the spec: a minimal header with name foo and
description bar, processed under a FixedPolicy entry whose capabilities are
Read and Write (joined with a comma and space) and whose memory scope is
project, yields exactly the expected output text: the missing model field
receives the fixed default tier and the description is double-quoted. -/
theorem c5_fixed_scenario :
    processWith
      (.fixedPolicy ⟨String.intercalate ", " ["Read", "Write"], some "project"⟩)
      ("---\nname: foo\ndescription: bar\n---\nBODY\n".toList) =
    .updated
      ("---\nname: foo\ndescription: \"bar\"\nmodel: sonnet\ntools: Read, Write\nmemory: project\n---\nBODY\n".toList) := by
  decide

/-- C2 (counterexample): a document whose first line is the opening marker
but which has no closing marker before the end of the text receives the very
same NoHeader outcome as a document with no marker at all, under an
identifier of the fixed policy table; there is no distinct hard-failure
outcome in the code. -/
theorem c2_counterexample :
    process "orchestration/task-loop.md" ("---\nname: x\n".toList) = .noHeader ∧
    process "orchestration/task-loop.md" ("plain body\n".toList) = .noHeader := by
  decide

/-- C2 (amended): a document whose first line is the opening marker but with
no occurrence of the closing pattern is skipped exactly like a document with
no header: the parse fails, the NoHeader outcome is returned under every
classification, no text is produced, and the rest of the batch continues
because the outcome is an ordinary value and not an exception. -/
theorem c2_malformed_is_skip (cls : Classification) (text : Str)
    (h1 : text.take 4 = marker) (h2 : findClose (text.drop 4) = none) :
    processWith cls text = .noHeader := by
  unfold processWith parse_frontmatter
  rw [if_pos h1, h2]

/-- C2 witness at a concrete malformed document. -/
theorem c2_witness :
    (("---\nname: x\n".toList : Str).take 4 = marker ∧
      findClose (("---\nname: x\n".toList : Str).drop 4) = none) ∧
    processWith (.dynamicPolicy "Read") ("---\nname: x\n".toList) = .noHeader :=
  ⟨⟨by decide, by decide⟩,
    c2_malformed_is_skip (.dynamicPolicy "Read") ("---\nname: x\n".toList)
      (by decide) (by decide)⟩

/-!
Amended-spec formulation of the value normalization for C3, written from the
amended wording: remove all leading and all trailing quote characters of each
kind in turn, regardless of matching.
-/

/-- Removal of all leading characters equal to q. -/
def dropLeadingQ (q : Char) : Str → Str
  | [] => []
  | c :: r => if c = q then dropLeadingQ q r else c :: r

/-- Removal of all leading and all trailing characters equal to q. -/
def stripEndsQ (q : Char) (s : Str) : Str :=
  (dropLeadingQ q ((dropLeadingQ q s).reverse)).reverse

/-- Removal of all leading whitespace characters. -/
def dropLeadingWs : Str → Str
  | [] => []
  | c :: r => if isWs c then dropLeadingWs r else c :: r

/-- Removal of all leading and trailing whitespace. -/
def trimEndsWs (s : Str) : Str := (dropLeadingWs ((dropLeadingWs s).reverse)).reverse

/-- Amended value normalization: trim whitespace, then remove all leading and
trailing double quotes, then all leading and trailing single quotes. -/
def specValue (raw : Str) : Str := stripEndsQ squote (stripEndsQ '"' (trimEndsWs raw))

theorem dropLeadingQ_eq (q : Char) (s : Str) :
    dropLeadingQ q s = s.dropWhile (fun c => [q].contains c) := by
  induction s with
  | nil => rfl
  | cons c r ih =>
    by_cases h : c = q
    · subst h
      rw [show dropLeadingQ c (c :: r) = dropLeadingQ c r from by rw [dropLeadingQ, if_pos rfl],
        ih, List.dropWhile_cons]
      simp
    · rw [show dropLeadingQ q (c :: r) = c :: r from by rw [dropLeadingQ, if_neg h],
        List.dropWhile_cons]
      simp [h]

theorem dropLeadingWs_eq (s : Str) : dropLeadingWs s = s.dropWhile isWs := by
  induction s with
  | nil => rfl
  | cons c r ih =>
    by_cases h : isWs c
    · rw [show dropLeadingWs (c :: r) = dropLeadingWs r from by rw [dropLeadingWs, if_pos h],
        ih, List.dropWhile_cons]
      simp [h]
    · rw [show dropLeadingWs (c :: r) = c :: r from by rw [dropLeadingWs, if_neg h],
        List.dropWhile_cons]
      simp [h]

theorem stripEndsQ_eq (q : Char) (s : Str) : stripEndsQ q s = stripChars [q] s := by
  unfold stripEndsQ stripChars dropTrailing
  rw [dropLeadingQ_eq, dropLeadingQ_eq]

theorem trimEndsWs_eq (s : Str) : trimEndsWs s = pyStrip s := by
  unfold trimEndsWs pyStrip dropTrailing
  rw [dropLeadingWs_eq, dropLeadingWs_eq]

theorem specValue_eq_parseValue (raw : Str) : specValue raw = parseValue raw := by
  unfold specValue parseValue
  rw [stripEndsQ_eq, stripEndsQ_eq, trimEndsWs_eq]

/-- C3 (counterexample): on the interior line (name: "foo), whose value has a
single unmatched leading double quote, the parser strips the quote and stores
foo, while the claim predicts that an unmatched quote is kept. -/
theorem c3_counterexample :
    parseLine [] ("name: \"foo".toList) = [("name".toList, "foo".toList)] ∧
    ("foo".toList : Str) ≠ "\"foo".toList := by
  decide

/-- C3 (amended): for every interior header line with a colon character, the
parser splits at the first colon, trims the key of whitespace, and normalizes
the value by trimming whitespace and then removing ALL leading and trailing
double-quote characters and then all leading and trailing single-quote
characters, whether or not the quotes match; unmatched and nested quote
layers at the ends are removed as well. -/
theorem c3_value_normalization (fm : Dict) (line : Str) (h : line.contains ':' = true) :
    parseLine fm line =
      Dict.insert fm (pyStrip (line.takeWhile (· != ':')))
        (specValue ((line.dropWhile (· != ':')).drop 1)) := by
  unfold parseLine
  rw [if_pos h, specValue_eq_parseValue]

/-- C3 witness at a concrete line with nested double quotes. -/
theorem c3_witness :
    ("name: \"\"x\"\"".toList : Str).contains ':' = true ∧
    parseLine [] ("name: \"\"x\"\"".toList) =
      Dict.insert [] (pyStrip (("name: \"\"x\"\"".toList : Str).takeWhile (· != ':')))
        (specValue ((("name: \"\"x\"\"".toList : Str).dropWhile (· != ':')).drop 1)) :=
  ⟨by decide, c3_value_normalization [] ("name: \"\"x\"\"".toList) (by decide)⟩

/-- C6: for every input with a well-formed header processed under a
FixedPolicy or DynamicPolicy classification, the output parses again and the
text after its closing marker line is byte-identical to the remainder of the
input after its closing marker line: the body is preserved. -/
theorem c6_body_preserved (relPath : String) (text : Str) (fm : Dict) (rest : Str)
    (hcls : classify relPath ≠ .uncategorized)
    (hp : parse_frontmatter text = some (fm, rest)) :
    ∃ out fm2, process relPath text = .updated out ∧
      parse_frontmatter out = some (fm2, rest) := by
  have hnl := parse_frontmatter_noNl hp
  have ha : noNl (Dict.getD fm kName []) := getD_noNl hnl (by decide)
  have hb : noNl (Dict.getD fm kDesc []) := getD_noNl hnl (by decide)
  have hmo : noNl (Dict.getD fm kModel defaultModel) := getD_noNl hnl (by decide)
  have hgoodc := classify_clsGood relPath
  unfold process
  cases hcf : classify relPath with
  | uncategorized => exact absurd hcf hcls
  | dynamicPolicy t =>
    rw [hcf] at hgoodc
    exact ⟨_, _, processWith_some (fun h => Classification.noConfusion h) hp,
      reparse_dyn _ _ _ rest ha hb hgoodc⟩
  | fixedPolicy c =>
    rw [hcf] at hgoodc
    obtain ⟨ct, cm⟩ := c
    cases cm with
    | none =>
      exact ⟨_, _, processWith_some (fun h => Classification.noConfusion h) hp,
        reparse_fixed _ _ _ _ rest ha hb hmo hgoodc.1⟩
    | some w =>
      exact ⟨_, _, processWith_some (fun h => Classification.noConfusion h) hp,
        reparse_fixed_mem _ _ _ _ _ rest ha hb hmo hgoodc.1 hgoodc.2⟩

/-- C6 witness at a concrete dynamic-policy document. -/
theorem c6_witness :
    classify "backend/api-designer.md" ≠ .uncategorized ∧
    parse_frontmatter ("---\nname: foo\ndescription: bar\n---\nB".toList) =
      some ([(kName, "foo".toList), (kDesc, "bar".toList)], "B".toList) ∧
    ∃ out fm2,
      process "backend/api-designer.md" ("---\nname: foo\ndescription: bar\n---\nB".toList) =
        .updated out ∧
      parse_frontmatter out = some (fm2, "B".toList) :=
  ⟨by decide, by decide,
    c6_body_preserved "backend/api-designer.md"
      ("---\nname: foo\ndescription: bar\n---\nB".toList)
      [(kName, "foo".toList), (kDesc, "bar".toList)] ("B".toList)
      (by decide) (by decide)⟩

/-- C4: for every document with a well-formed header classified
DynamicPolicy, the merged field set has no model key, and the rebuilt output
header, parsed again, has no model key either, whatever the input header
contained. -/
theorem c4_dynamic_no_model (relPath : String) (t : String) (text : Str) (fm : Dict)
    (rest : Str) (hcls : classify relPath = .dynamicPolicy t)
    (hp : parse_frontmatter text = some (fm, rest)) :
    Dict.get? (mergeFields (.dynamicPolicy t) fm) kModel = none ∧
    ∃ out fm2, process relPath text = .updated out ∧
      parse_frontmatter out = some (fm2, rest) ∧ Dict.get? fm2 kModel = none := by
  refine ⟨rfl, ?_⟩
  have hnl := parse_frontmatter_noNl hp
  have ha : noNl (Dict.getD fm kName []) := getD_noNl hnl (by decide)
  have hb : noNl (Dict.getD fm kDesc []) := getD_noNl hnl (by decide)
  have hgoodc := classify_clsGood relPath
  rw [hcls] at hgoodc
  unfold process
  rw [hcls]
  exact ⟨_, _, processWith_some (fun h => Classification.noConfusion h) hp,
    reparse_dyn _ _ _ rest ha hb hgoodc, rfl⟩

/-- C4 witness at a concrete dynamic-policy document whose input header
contains a model field. -/
theorem c4_witness :
    classify "frontend/frontend-developer.md" = .dynamicPolicy "Read, Edit, Write, Glob, Grep, Bash" ∧
    parse_frontmatter ("---\nname: f\ndescription: d\nmodel: opus\n---\nB".toList) =
      some ([(kName, "f".toList), (kDesc, "d".toList), (kModel, "opus".toList)], "B".toList) ∧
    (Dict.get? (mergeFields (.dynamicPolicy "Read, Edit, Write, Glob, Grep, Bash")
        [(kName, "f".toList), (kDesc, "d".toList), (kModel, "opus".toList)]) kModel = none ∧
      ∃ out fm2,
        process "frontend/frontend-developer.md"
            ("---\nname: f\ndescription: d\nmodel: opus\n---\nB".toList) = .updated out ∧
        parse_frontmatter out = some (fm2, "B".toList) ∧ Dict.get? fm2 kModel = none) :=
  ⟨by decide, by decide,
    c4_dynamic_no_model "frontend/frontend-developer.md"
      "Read, Edit, Write, Glob, Grep, Bash"
      ("---\nname: f\ndescription: d\nmodel: opus\n---\nB".toList)
      [(kName, "f".toList), (kDesc, "d".toList), (kModel, "opus".toList)] ("B".toList)
      (by decide) (by decide)⟩

/-- C8: for every document with a well-formed header classified FixedPolicy,
the memory key of the merged field set equals exactly the memory scope of the
policy entry (none when the entry specifies none, even if the input header
had a memory field), and the same holds for the header of the rebuilt output
parsed again. -/
theorem c8_memory_policy (relPath : String) (c : FixedConfig) (text : Str) (fm : Dict)
    (rest : Str) (hcls : classify relPath = .fixedPolicy c)
    (hp : parse_frontmatter text = some (fm, rest)) :
    Dict.get? (mergeFields (.fixedPolicy c) fm) kMemory = c.memory.map String.toList ∧
    ∃ out fm2, process relPath text = .updated out ∧
      parse_frontmatter out = some (fm2, rest) ∧
      Dict.get? fm2 kMemory = c.memory.map String.toList := by
  have hnl := parse_frontmatter_noNl hp
  have ha : noNl (Dict.getD fm kName []) := getD_noNl hnl (by decide)
  have hb : noNl (Dict.getD fm kDesc []) := getD_noNl hnl (by decide)
  have hmo : noNl (Dict.getD fm kModel defaultModel) := getD_noNl hnl (by decide)
  have hgoodc := classify_clsGood relPath
  rw [hcls] at hgoodc
  unfold process
  rw [hcls]
  obtain ⟨ct, cm⟩ := c
  cases cm with
  | none =>
    exact ⟨rfl, _, _, processWith_some (fun h => Classification.noConfusion h) hp,
      reparse_fixed _ _ _ _ rest ha hb hmo hgoodc.1, rfl⟩
  | some w =>
    refine ⟨rfl, _, _, processWith_some (fun h => Classification.noConfusion h) hp,
      reparse_fixed_mem _ _ _ _ _ rest ha hb hmo hgoodc.1 hgoodc.2, ?_⟩
    show some (parseValue (String.toList w)) = some (String.toList w)
    rw [goodVal_reparse hgoodc.2]

/-- C8 witness at a concrete fixed-policy document without a configured
memory scope whose input header carries a memory field. -/
theorem c8_witness :
    classify "orchestration/scope-validator.md" =
      .fixedPolicy ⟨"Read, Glob, Grep, Bash", none⟩ ∧
    parse_frontmatter ("---\nname: s\ndescription: d\nmemory: local\n---\nB".toList) =
      some ([(kName, "s".toList), (kDesc, "d".toList), (kMemory, "local".toList)],
        "B".toList) ∧
    (Dict.get? (mergeFields (.fixedPolicy ⟨"Read, Glob, Grep, Bash", none⟩)
        [(kName, "s".toList), (kDesc, "d".toList), (kMemory, "local".toList)]) kMemory =
      (none : Option String).map String.toList ∧
      ∃ out fm2,
        process "orchestration/scope-validator.md"
            ("---\nname: s\ndescription: d\nmemory: local\n---\nB".toList) = .updated out ∧
        parse_frontmatter out = some (fm2, "B".toList) ∧
        Dict.get? fm2 kMemory = (none : Option String).map String.toList) :=
  ⟨by decide, by decide,
    c8_memory_policy "orchestration/scope-validator.md" ⟨"Read, Glob, Grep, Bash", none⟩
      ("---\nname: s\ndescription: d\nmemory: local\n---\nB".toList)
      [(kName, "s".toList), (kDesc, "d".toList), (kMemory, "local".toList)] ("B".toList)
      (by decide) (by decide)⟩

/-- C1 (counterexample): a dynamic-policy document with the well-formed
header (name: " a ") is not a fixed point after one run: the first run stores
the value ( a ) with its inner padding, the second run trims that padding, so
the second output differs from the first. -/
theorem c1_counterexample :
    process "backend/api-designer.md"
        ("---\nname: \" a \"\ndescription: b\n---\nB".toList) =
      .updated
        ("---\nname:  a \ndescription: \"b\"\ntools: Read, Edit, Write, Glob, Grep, Bash\n---\nB".toList) ∧
    process "backend/api-designer.md"
        ("---\nname:  a \ndescription: \"b\"\ntools: Read, Edit, Write, Glob, Grep, Bash\n---\nB".toList) =
      .updated
        ("---\nname: a\ndescription: \"b\"\ntools: Read, Edit, Write, Glob, Grep, Bash\n---\nB".toList) ∧
    ("---\nname:  a \ndescription: \"b\"\ntools: Read, Edit, Write, Glob, Grep, Bash\n---\nB".toList : Str) ≠
      "---\nname: a\ndescription: \"b\"\ntools: Read, Edit, Write, Glob, Grep, Bash\n---\nB".toList :=
  ⟨by decide, by decide, by decide⟩

/-- Recognizer of the FixedPolicy class, used to scope the model-value
stability hypothesis of the idempotence theorem to fixed-policy documents
only. -/
def isFixed : Classification → Bool
  | .fixedPolicy _ => true
  | _ => false

/-- C1 (amended): for every document with a well-formed header classified
FixedPolicy or DynamicPolicy, processing a second time reproduces the first
output byte for byte, provided the pass-through values are stable under one
more round of the value normalization: the parsed name and (for FixedPolicy
only) model values unchanged by trimming and quote stripping, and the parsed
description value unchanged after re-wrapping in double quotes.  Values free
of leading and trailing whitespace and quote characters qualify; without the
proviso a padded quoted value such as (" a ") is trimmed further on the
second run. -/
theorem c1_process_idempotent (relPath : String) (text : Str) (fm : Dict) (rest : Str)
    (hcls : classify relPath ≠ .uncategorized)
    (hp : parse_frontmatter text = some (fm, rest))
    (hsa : parseValue (Dict.getD fm kName []) = Dict.getD fm kName [])
    (hsb : parseValue ('"' :: (Dict.getD fm kDesc [] ++ ['"'])) = Dict.getD fm kDesc [])
    (hsm : isFixed (classify relPath) = true →
      parseValue (Dict.getD fm kModel defaultModel) =
        Dict.getD fm kModel defaultModel) :
    ∃ out, process relPath text = .updated out ∧ process relPath out = .updated out := by
  have hnl := parse_frontmatter_noNl hp
  have ha : noNl (Dict.getD fm kName []) := getD_noNl hnl (by decide)
  have hb : noNl (Dict.getD fm kDesc []) := getD_noNl hnl (by decide)
  have hmo : noNl (Dict.getD fm kModel defaultModel) := getD_noNl hnl (by decide)
  have hgoodc := classify_clsGood relPath
  unfold process
  cases hcf : classify relPath with
  | uncategorized => exact absurd hcf hcls
  | dynamicPolicy t =>
    rw [hcf] at hgoodc
    refine ⟨build_frontmatter [(kName, Dict.getD fm kName []),
      (kDesc, Dict.getD fm kDesc []), (kTools, t.toList)] ++ rest,
      processWith_some (fun h => Classification.noConfusion h) hp, ?_⟩
    have hre := reparse_dyn (Dict.getD fm kName []) (Dict.getD fm kDesc [])
      t.toList rest ha hb hgoodc
    rw [hsa, hsb, goodVal_reparse hgoodc] at hre
    rw [processWith_some (fun h => Classification.noConfusion h) hre]
    rfl
  | fixedPolicy c =>
    rw [hcf] at hgoodc
    obtain ⟨ct, cm⟩ := c
    cases cm with
    | none =>
      refine ⟨build_frontmatter [(kName, Dict.getD fm kName []),
        (kDesc, Dict.getD fm kDesc []), (kModel, Dict.getD fm kModel defaultModel),
        (kTools, ct.toList)] ++ rest,
        processWith_some (fun h => Classification.noConfusion h) hp, ?_⟩
      have hsm2 := hsm (by rw [hcf]; rfl)
      have hre := reparse_fixed (Dict.getD fm kName []) (Dict.getD fm kDesc [])
        (Dict.getD fm kModel defaultModel) ct.toList rest ha hb hmo hgoodc.1
      rw [hsa, hsb, hsm2, goodVal_reparse hgoodc.1] at hre
      rw [processWith_some (fun h => Classification.noConfusion h) hre]
      rfl
    | some w =>
      refine ⟨build_frontmatter [(kName, Dict.getD fm kName []),
        (kDesc, Dict.getD fm kDesc []), (kModel, Dict.getD fm kModel defaultModel),
        (kTools, ct.toList), (kMemory, w.toList)] ++ rest,
        processWith_some (fun h => Classification.noConfusion h) hp, ?_⟩
      have hsm2 := hsm (by rw [hcf]; rfl)
      have hre := reparse_fixed_mem (Dict.getD fm kName []) (Dict.getD fm kDesc [])
        (Dict.getD fm kModel defaultModel) ct.toList w.toList rest ha hb hmo
        hgoodc.1 hgoodc.2
      rw [hsa, hsb, hsm2, goodVal_reparse hgoodc.1, goodVal_reparse hgoodc.2] at hre
      rw [processWith_some (fun h => Classification.noConfusion h) hre]
      rfl

/-- C1 witness at a concrete fixed-policy document with stable values. -/
theorem c1_witness :
    classify "orchestration/task-loop.md" ≠ .uncategorized ∧
    parse_frontmatter ("---\nname: foo\ndescription: bar\n---\nB".toList) =
      some ([(kName, "foo".toList), (kDesc, "bar".toList)], "B".toList) ∧
    parseValue (Dict.getD [(kName, "foo".toList), (kDesc, "bar".toList)] kName []) =
      Dict.getD [(kName, "foo".toList), (kDesc, "bar".toList)] kName [] ∧
    ∃ out,
      process "orchestration/task-loop.md"
          ("---\nname: foo\ndescription: bar\n---\nB".toList) = .updated out ∧
      process "orchestration/task-loop.md" out = .updated out :=
  ⟨by decide, by decide, by decide,
    c1_process_idempotent "orchestration/task-loop.md"
      ("---\nname: foo\ndescription: bar\n---\nB".toList)
      [(kName, "foo".toList), (kDesc, "bar".toList)] ("B".toList)
      (by decide) (by decide) (by decide) (by decide) (by decide)⟩

end AgentFM
